import Mathlib

/-!
Verification of the Uganda spatial-interpolation pipeline.

The definitions below are a shallow embedding of the Python sources:
`src/run_enhanced_uganda_analysis.py` (the enhanced daily-interpolation
pipeline) and `src/app.py` (the web-facing interpolation endpoint and the
coordinate / variable detectors).  Real-valued quantities are modelled
over `ℚ`; fallible steps return `Option`.
-/

namespace Uganda

/-- `np.linspace a b n`: `n` evenly spaced points from `a` to `b`, both
endpoints included (for `n = 1` the single point `a`; for `n = 0` empty).
For `n = 1` the formula below divides by zero, which in `ℚ` yields `0`,
so the value is `a`, matching numpy. -/
def linspace (a b : ℚ) (n : ℕ) : List ℚ :=
  (List.range n).map (fun i : ℕ => a + (b - a) * (i : ℚ) / ((n - 1 : ℕ) : ℚ))

/-- Python `int(q)`: truncation toward zero. -/
def truncQ (q : ℚ) : ℤ :=
  if 0 ≤ q then ⌊q⌋ else -⌊-q⌋

/-- `lat_buffer = (lat_max - lat_min) * buffer_percent`
(`run_enhanced_uganda_analysis.py` line 111; same formula for longitude). -/
def axisBuffer (cmin cmax bufPct : ℚ) : ℚ :=
  (cmax - cmin) * bufPct

/-- Lower bound of the buffered axis extent: `lat_min - lat_buffer`. -/
def bufferedMin (cmin cmax bufPct : ℚ) : ℚ :=
  cmin - axisBuffer cmin cmax bufPct

/-- Upper bound of the buffered axis extent: `lat_max + lat_buffer`. -/
def bufferedMax (cmin cmax bufPct : ℚ) : ℚ :=
  cmax + axisBuffer cmin cmax bufPct

/-- `n_lat = int((lat_max - lat_min + 2*lat_buffer) / grid_resolution) + 1`
(`run_enhanced_uganda_analysis.py` line 115). -/
def nAxisRaw (cmin cmax bufPct res : ℚ) : ℤ :=
  truncQ ((cmax - cmin + 2 * axisBuffer cmin cmax bufPct) / res) + 1

/-- `n_lat = min(n_lat, 400)` (line 119): the per-axis cell-count cap. -/
def nAxisCells (cmin cmax bufPct res : ℚ) : ℤ :=
  min (nAxisRaw cmin cmax bufPct res) 400

/-- `grid_lat = np.linspace(lat_min - lat_buffer, lat_max + lat_buffer, n_lat)`
(line 122; same for longitude on line 123). -/
def gridAxis (cmin cmax bufPct res : ℚ) : List ℚ :=
  linspace (bufferedMin cmin cmax bufPct) (bufferedMax cmin cmax bufPct)
    (nAxisCells cmin cmax bufPct res).toNat

/-- C3: The grid builder never produces more than 400 cells on an axis: the
raw cell count is clamped with `min(·, 400)`.  In particular a request
whose extent/resolution ratio implies 14000 cells (e.g. extent 50°,
buffer 0.2, resolution 0.005°, i.e. a grid far beyond 10000 per axis
before clamping) is capped to exactly 400 and the grid is still built. -/
theorem grid_axis_cell_cap :
    (∀ cmin cmax bufPct res : ℚ, nAxisCells cmin cmax bufPct res ≤ 400) ∧
      nAxisRaw 0 50 (1/5) (1/200) = 14001 ∧
      nAxisCells 0 50 (1/5) (1/200) = 400 := by
  refine ⟨fun cmin cmax bufPct res => min_le_right _ _, ?_, ?_⟩ <;>
    norm_num [nAxisRaw, nAxisCells, truncQ, axisBuffer]

lemma linspace_mem_left (a b : ℚ) {n : ℕ} (hn : 0 < n) : a ∈ linspace a b n := by
  simp only [linspace, List.mem_map, List.mem_range]
  exact ⟨0, hn, by simp⟩

lemma linspace_mem_right (a b : ℚ) {n : ℕ} (hn : 2 ≤ n) : b ∈ linspace a b n := by
  simp only [linspace, List.mem_map, List.mem_range]
  refine ⟨n - 1, by omega, ?_⟩
  have hd : (((n - 1 : ℕ)) : ℚ) ≠ 0 := Nat.cast_ne_zero.mpr (by omega)
  rw [mul_div_assoc, div_self hd, mul_one]
  ring

lemma linspace_bounds {a b : ℚ} (hab : a ≤ b) {n : ℕ} :
    ∀ g ∈ linspace a b n, a ≤ g ∧ g ≤ b := by
  intro g hg
  simp only [linspace, List.mem_map, List.mem_range] at hg
  obtain ⟨i, hi', rfl⟩ := hg
  by_cases hd : (((n - 1 : ℕ)) : ℚ) = 0
  · have hn1 : n - 1 = 0 := Nat.cast_eq_zero.mp hd
    have hi0 : i = 0 := by omega
    subst hi0
    simp [hab]
  · have hdpos : (0 : ℚ) < ((n - 1 : ℕ) : ℚ) :=
      lt_of_le_of_ne (Nat.cast_nonneg _) (Ne.symm hd)
    have hic : ((i : ℚ)) ≤ ((n - 1 : ℕ) : ℚ) := Nat.cast_le.mpr (by omega)
    have hnum : (0 : ℚ) ≤ (b - a) * (i : ℚ) :=
      mul_nonneg (by linarith) (Nat.cast_nonneg _)
    constructor
    · have : (0 : ℚ) ≤ (b - a) * (i : ℚ) / ((n - 1 : ℕ) : ℚ) :=
        div_nonneg hnum hdpos.le
      linarith
    · have hstep : (b - a) * (i : ℚ) / ((n - 1 : ℕ) : ℚ) ≤ b - a := by
        rw [div_le_iff₀ hdpos]
        have := mul_le_mul_of_nonneg_left hic (sub_nonneg.mpr hab)
        linarith
      linarith

lemma nAxisCells_ge_two {cmin cmax bufPct res : ℚ} (hres : 0 < res)
    (hr : res ≤ cmax - cmin + 2 * axisBuffer cmin cmax bufPct) :
    2 ≤ (nAxisCells cmin cmax bufPct res).toNat := by
  set q : ℚ := (cmax - cmin + 2 * axisBuffer cmin cmax bufPct) / res with hq
  have hq1 : (1 : ℚ) ≤ q := by
    rw [hq, le_div_iff₀ hres]
    linarith
  have hq0 : (0 : ℚ) ≤ q := le_trans zero_le_one hq1
  have hfloor : (1 : ℤ) ≤ ⌊q⌋ := Int.le_floor.mpr (by exact_mod_cast hq1)
  have htrunc : truncQ q = ⌊q⌋ := if_pos hq0
  have hraw : (2 : ℤ) ≤ nAxisRaw cmin cmax bufPct res := by
    unfold nAxisRaw
    rw [← hq, htrunc]
    omega
  have hcells : (2 : ℤ) ≤ nAxisCells cmin cmax bufPct res :=
    le_min hraw (by norm_num)
  omega

/-- C4 counterexample: when an axis has zero extent (all samples share one
latitude), the buffer `(max - min) * buffer_percent` is zero, the grid
degenerates to the single coordinate, and the grid's extent does not
strictly contain the samples' bounding box. -/
theorem grid_zero_extent_axis_degenerate :
    gridAxis 1 1 (1/5) (1/200) = [(1 : ℚ)] ∧
      ¬ (bufferedMin 1 1 (1/5) < 1 ∧ 1 < bufferedMax 1 1 (1/5)) := by
  constructor
  · norm_num [gridAxis, linspace, nAxisCells, nAxisRaw, truncQ, bufferedMin,
      bufferedMax, axisBuffer, List.range_succ]
  · norm_num [bufferedMin, bufferedMax, axisBuffer]

/-- C4 (amended): when the sampled axis extent is positive, the buffer
fraction is positive, and the resolution is no coarser than the buffered
extent (so at least two grid points fit the axis), the grid spans exactly
the buffered bounds, which strictly contain the samples' bounding box on
that axis.  (With a zero-extent axis the buffer is zero and the grid
degenerates — see the counterexample.) -/
theorem grid_extent_contains_bbox (cmin cmax bufPct res : ℚ)
    (hext : cmin < cmax) (hbuf : 0 < bufPct) (hres : 0 < res)
    (hr : res ≤ cmax - cmin + 2 * axisBuffer cmin cmax bufPct) :
    bufferedMin cmin cmax bufPct ∈ gridAxis cmin cmax bufPct res ∧
    bufferedMax cmin cmax bufPct ∈ gridAxis cmin cmax bufPct res ∧
    (∀ g ∈ gridAxis cmin cmax bufPct res,
        bufferedMin cmin cmax bufPct ≤ g ∧ g ≤ bufferedMax cmin cmax bufPct) ∧
    bufferedMin cmin cmax bufPct < cmin ∧ cmax < bufferedMax cmin cmax bufPct := by
  have hn2 := nAxisCells_ge_two hres hr
  have hbufpos : 0 < axisBuffer cmin cmax bufPct :=
    mul_pos (by linarith) hbuf
  have hab : bufferedMin cmin cmax bufPct ≤ bufferedMax cmin cmax bufPct := by
    unfold bufferedMin bufferedMax
    linarith
  refine ⟨linspace_mem_left _ _ (by omega), linspace_mem_right _ _ hn2,
    linspace_bounds hab, ?_, ?_⟩
  · unfold bufferedMin
    linarith
  · unfold bufferedMax
    linarith

/-- C4 witness: a concrete axis (samples spanning [0, 1], buffer 0.2,
resolution 0.5) whose grid extent strictly contains the bounding box. -/
theorem grid_extent_contains_bbox_witness :
    bufferedMin 0 1 (1/5) ∈ gridAxis 0 1 (1/5) (1/2) ∧
    bufferedMax 0 1 (1/5) ∈ gridAxis 0 1 (1/5) (1/2) ∧
    (∀ g ∈ gridAxis 0 1 (1/5) (1/2),
        bufferedMin 0 1 (1/5) ≤ g ∧ g ≤ bufferedMax 0 1 (1/5)) ∧
    bufferedMin 0 1 (1/5) < 0 ∧ 1 < bufferedMax 0 1 (1/5) :=
  grid_extent_contains_bbox 0 1 (1/5) (1/2) (by norm_num) (by norm_num)
    (by norm_num) (by norm_num [axisBuffer])

/-- The affine transform built by `rasterio.transform.from_bounds(west,
south, east, north, width, height)`: `x = west + xres * col`,
`y = north - yres * row`, i.e. pixel row 0 is at the top (north edge).
Modelled by its nonzero coefficients (`a` = x step, `c` = west origin,
`e` = negative y step, `f` = north origin); `b = d = 0`. -/
structure AffineT where
  a : ℚ
  c : ℚ
  e : ℚ
  f : ℚ
deriving DecidableEq

/-- `rasterio.transform.from_bounds` (used at
`run_enhanced_uganda_analysis.py` lines 198-202 with
`grid_lon.min(), grid_lat.min(), grid_lon.max(), grid_lat.max(),
len(grid_lon), len(grid_lat)`). -/
def from_bounds (west south east north : ℚ) (width height : ℕ) : AffineT :=
  ⟨(east - west) / (width : ℚ), west, -((north - south) / (height : ℚ)), north⟩

/-- Latitude of the centre of pixel row `row` under transform `t`. -/
def pixelCenterLat (t : AffineT) (row : ℕ) : ℚ :=
  t.f + t.e * ((row : ℚ) + 1/2)

/-- The 2-D array written as the raster band.  All three interpolators lay
out the estimate `est lon lat` as `z[i][j] = est (grid_lon[j]) (grid_lat[i])`:
the IDW loop iterates `i` over `grid_lat` and `j` over `grid_lon` (lines
163-168), kriging's `ok.execute('grid', grid_lon, grid_lat)` and the RBF
evaluation on `meshgrid(grid_lon, grid_lat)` produce the same layout.
`dst.write(z.astype(np.float32), 1)` (line 215) then stores row `i` of `z`
as pixel row `i`, with no vertical flip. -/
def writtenBand (est : ℚ → ℚ → ℚ) (gridLon gridLat : List ℚ) : List (List ℚ) :=
  gridLat.map (fun la => gridLon.map (fun lo => est lo la))

/-- Value stored at pixel (row, col) of a written band. -/
def bandAt (band : List (List ℚ)) (row col : ℕ) : ℚ :=
  (band.getD row []).getD col 0

/-- C1: the encoder's transform and its band layout disagree.  The
`from_bounds` transform places pixel row 0 at the north edge of the
buffered bbox (its `f` coefficient is the north bound, and row centres
decrease with the row index), but the written band's row 0 holds the
estimates computed at the *southernmost* grid latitude, because
`grid_lat` ascends and `z` is written without a vertical flip.  Concretely
with `grid_lat = grid_lon = linspace 0 1 2` and estimator
`est lon lat = lat`: the value stored at pixel (0,0) is 0 — the estimate
at the bottom-left (south-west) corner — whereas the estimate at the
top-left (north-west) corner of the buffered bbox is 1. -/
theorem raster_pixel00_is_south_west :
    (from_bounds 0 0 1 1 2 2).f = 1 ∧
    pixelCenterLat (from_bounds 0 0 1 1 2 2) 0 = 3/4 ∧
    pixelCenterLat (from_bounds 0 0 1 1 2 2) 1 = 1/4 ∧
    bandAt (writtenBand (fun _ la => la) (linspace 0 1 2) (linspace 0 1 2)) 0 0 = 0 ∧
    (fun (_ la : ℚ) => la) 0 1 = 1 ∧
    bandAt (writtenBand (fun _ la => la) (linspace 0 1 2) (linspace 0 1 2)) 0 0 ≠ 1 := by
  refine ⟨rfl, ?_, ?_, ?_, rfl, ?_⟩ <;>
    norm_num [pixelCenterLat, from_bounds, bandAt, writtenBand, linspace,
      List.range_succ]

/-- `os.path.basename`: the component after the final `/`. -/
def basename (p : String) : String :=
  (p.splitOn "/").getLastD p

/-- Physical band `k` (1-based) of the multi-variable geostack is written
from `all_daily_rasters[k-1]`: the writer loops
`for i, raster_file in enumerate(all_daily_rasters, 1): dst.write(data, i)`
(`run_enhanced_uganda_analysis.py` lines 332-347), in input order, with no
reordering and no deduplication. -/
def bandSourceFile (files : List String) (k : ℕ) : Option String :=
  files[k-1]?

/-- The companion catalog's `band_catalog` list (lines 356-364): entry `i`
(0-based) is `{band_number: i+1, filename: basename(all_daily_rasters[i])}`
(the `variable` and `date` fields are substrings of the same basename);
modelled as the (band_number, filename) pair. -/
def band_catalog (files : List String) : List (ℕ × String) :=
  files.enum.map (fun p => (p.1 + 1, basename p.2))

/-- C2: for every `k` from 1 to the number of input rasters, the catalog
entry with `band_number = k` (it sits at catalog position `k-1`, and every
catalog entry carrying band number `k` agrees) names exactly the basename
of the raster file whose data was written as physical band `k`; input
order defines band order with no reordering or deduplication. -/
theorem catalog_band_matches_physical_band (files : List String) (k : ℕ)
    (h1 : 1 ≤ k) (f : String) (h2 : bandSourceFile files k = some f) :
    (band_catalog files)[k-1]? = some (k, basename f) ∧
    ∀ q ∈ band_catalog files, q.1 = k → q.2 = basename f := by
  unfold bandSourceFile at h2
  constructor
  · unfold band_catalog
    rw [List.getElem?_map, List.getElem?_enum, h2]
    simp only [Option.map_some']
    congr 2
    omega
  · intro q hq hqk
    unfold band_catalog at hq
    obtain ⟨p, hp, rfl⟩ := List.mem_map.mp hq
    have hp' : files[p.1]? = some p.2 := by
      have := List.mem_enum_iff_getElem?.mp hp
      simpa using this
    have hidx : p.1 = k - 1 := by
      simp only at hqk
      omega
    rw [hidx, h2] at hp'
    simp only
    rw [Option.some_inj.mp hp']

/-- C2 witness: a two-raster geostack; band 2 is the second input file and
the catalog's band-2 entry names its basename. -/
theorem catalog_band_matches_physical_band_witness :
    (band_catalog ["/app/out/uganda_NDVI_daily_2020-01-01.tif",
        "/app/out/uganda_pm25_daily_2020-01-02.tif"])[1]? =
      some (2, basename "/app/out/uganda_pm25_daily_2020-01-02.tif") ∧
    ∀ q ∈ band_catalog ["/app/out/uganda_NDVI_daily_2020-01-01.tif",
        "/app/out/uganda_pm25_daily_2020-01-02.tif"],
      q.1 = 2 → q.2 = basename "/app/out/uganda_pm25_daily_2020-01-02.tif" :=
  catalog_band_matches_physical_band
    ["/app/out/uganda_NDVI_daily_2020-01-01.tif",
      "/app/out/uganda_pm25_daily_2020-01-02.tif"] 2 (by norm_num)
    "/app/out/uganda_pm25_daily_2020-01-02.tif" rfl

/-- ASCII lower-casing of one character (Python `str.lower()` restricted
to the ASCII column names this code deals with). -/
def lowerChar (c : Char) : Char :=
  if 'A' ≤ c ∧ c ≤ 'Z' then Char.ofNat (c.toNat + 32) else c

/-- `col.lower()`. -/
def lowerStr (s : String) : String :=
  ⟨s.toList.map lowerChar⟩

/-- Character-list version of "starts with". -/
def startsWithL : List Char → List Char → Bool
  | [], _ => true
  | _ :: _, [] => false
  | p :: ps, c :: cs => p == c && startsWithL ps cs

/-- `pat` occurs somewhere in the character list. -/
def occursIn (pat : List Char) : List Char → Bool
  | [] => pat.isEmpty
  | c :: cs => startsWithL pat (c :: cs) || occursIn pat cs

/-- Python's substring test `pat in s`. -/
def strContains (s pat : String) : Bool :=
  occursIn pat.toList s.toList

/-- `lat_patterns = ['lat', 'latitude', 'y', 'northing']` (`app.py` line 24). -/
def lat_patterns : List String := ["lat", "latitude", "y", "northing"]

/-- `lon_patterns = ['lon', 'long', 'longitude', 'x', 'easting']` (line 25). -/
def lon_patterns : List String := ["lon", "long", "longitude", "x", "easting"]

/-- `any(pattern in col_lower for pattern in lat_patterns)` (line 32). -/
def matchesLatCol (col : String) : Bool :=
  lat_patterns.any (fun p => strContains (lowerStr col) p)

/-- `any(pattern in col_lower for pattern in lon_patterns)` (line 34). -/
def matchesLonCol (col : String) : Bool :=
  lon_patterns.any (fun p => strContains (lowerStr col) p)

/-- One iteration of the detection loop (`app.py` lines 30-35): a column
matching a latitude pattern overwrites `lat_col`; otherwise a column
matching a longitude pattern overwrites `lon_col` (`elif`, so a column
matching both pattern sets only counts as latitude). -/
def detectStep (acc : Option String × Option String) (col : String) :
    Option String × Option String :=
  if matchesLatCol col then (some col, acc.2)
  else if matchesLonCol col then (acc.1, some col)
  else acc

/-- `detect_coordinate_columns(df)` (`app.py` lines 22-39): fold the loop
over the columns in table order; return the pair only if both roles were
assigned. -/
def detect_coordinate_columns (cols : List String) : Option (String × String) :=
  match cols.foldl detectStep (none, none) with
  | (some la, some lo) => some (la, lo)
  | _ => none

/-- Columns that reach the `elif` longitude branch: they match a longitude
pattern but no latitude pattern. -/
def matchesLonOnlyCol (col : String) : Bool :=
  !matchesLatCol col && matchesLonCol col

/-- First-of option, used to state "the last assignment wins". -/
def orO {α : Type} (x y : Option α) : Option α :=
  match x with
  | some a => some a
  | none => y

lemma orO_assoc {α : Type} (x y z : Option α) :
    orO (orO x y) z = orO x (orO y z) := by
  cases x <;> rfl

lemma find?_append_orO {α : Type} (p : α → Bool) (xs ys : List α) :
    (xs ++ ys).find? p = orO (xs.find? p) (ys.find? p) := by
  induction xs with
  | nil => rfl
  | cons x xs ih =>
    cases h : p x <;> simp [List.find?, h, orO, ih]

lemma detectStep_fst (acc : Option String × Option String) (c : String) :
    (detectStep acc c).1 = orO ([c].find? matchesLatCol) acc.1 := by
  unfold detectStep
  cases hL : matchesLatCol c <;> cases hM : matchesLonCol c <;>
    simp [List.find?, hL, hM, orO]

lemma detectStep_snd (acc : Option String × Option String) (c : String) :
    (detectStep acc c).2 = orO ([c].find? matchesLonOnlyCol) acc.2 := by
  unfold detectStep
  cases hL : matchesLatCol c <;> cases hM : matchesLonCol c <;>
    simp [List.find?, hL, hM, orO, matchesLonOnlyCol]

lemma detect_foldl (cols : List String) (acc : Option String × Option String) :
    cols.foldl detectStep acc =
      (orO (cols.reverse.find? matchesLatCol) acc.1,
        orO (cols.reverse.find? matchesLonOnlyCol) acc.2) := by
  induction cols generalizing acc with
  | nil =>
    cases acc
    rfl
  | cons c cs ih =>
    rw [List.foldl_cons, ih, List.reverse_cons, find?_append_orO,
      find?_append_orO, detectStep_fst, detectStep_snd, orO_assoc, orO_assoc]

/-- C7 counterexample: with columns ["lat", "latitude2", "lon"], both
"lat" and "latitude2" match the latitude patterns; the claim says the
first matching column ("lat") is assigned the role, but the detector
returns "latitude2" — each match overwrites the previous assignment. -/
theorem detect_first_match_counterexample :
    detect_coordinate_columns ["lat", "latitude2", "lon"] =
      some ("latitude2", "lon") ∧ ("latitude2" : String) ≠ "lat" :=
  ⟨by decide, by decide⟩

/-- C7 (amended): the detector assigns each coordinate role to the LAST
matching column in table order (each match overwrites the previous
assignment); latitude patterns are tested first, so a column matching
both pattern sets counts only as latitude. -/
theorem detect_last_match (cols : List String) (a b : String)
    (ha : cols.reverse.find? matchesLatCol = some a)
    (hb : cols.reverse.find? matchesLonOnlyCol = some b) :
    detect_coordinate_columns cols = some (a, b) := by
  unfold detect_coordinate_columns
  rw [detect_foldl, ha, hb]
  rfl

/-- C7 witness: on ["lat", "latitude2", "lon"] the last latitude-matching
column is "latitude2" and the last longitude-only-matching column is
"lon"; the detector returns exactly that pair. -/
theorem detect_last_match_witness :
    detect_coordinate_columns ["lat", "latitude2", "lon"] =
      some ("latitude2", "lon") :=
  detect_last_match ["lat", "latitude2", "lon"] "latitude2" "lon"
    (by decide) (by decide)

/-- Outcome of method dispatch: which interpolation actually runs, or no
result at all. -/
inductive MethodChoice
  | kriging
  | rbf
  | idw
  | noResult
deriving DecidableEq

/-- Method dispatch of `perform_interpolation`
(`run_enhanced_uganda_analysis.py` lines 145-172): an `if/elif` chain on
the method string.  No branch matches an unknown name, so the function
falls through and implicitly returns `None`, which the caller merely
counts as a failed interpolation — the code defines no UnsupportedMethod
error. -/
def perform_interpolation_method (m : String) : MethodChoice :=
  if m = "kriging" then .kriging
  else if m = "rbf" then .rbf
  else if m = "idw" then .idw
  else .noResult

/-- Method dispatch of the web endpoint `run_interpolation` (`app.py`
lines 338-357): `method = config['method'].lower()`, then
`if method == 'kriging': ... else: # IDW fallback` — every method other
than kriging, known or unknown, runs IDW. -/
def run_interpolation_method (m : String) : MethodChoice :=
  if lowerStr m = "kriging" then .kriging else .idw

/-- C5 counterexample: for the unsupported method name "cubic" the web
endpoint silently falls back to IDW, and the enhanced pipeline's
dispatcher produces no result (a `None` recorded as a plain failed
interpolation); neither path raises an UnsupportedMethod error — no such
error exists in the code. -/
theorem unsupported_method_counterexample :
    run_interpolation_method "cubic" = MethodChoice.idw ∧
    perform_interpolation_method "cubic" = MethodChoice.noResult :=
  ⟨by decide, by decide⟩

/-- C5 (amended): no unknown method name yields an UnsupportedMethod
error: the web endpoint treats every method whose lower-cased name
differs from "kriging" — supported or not — as IDW (silent fallback), and
the enhanced pipeline's dispatcher returns a null result that the caller
counts as an ordinary failed interpolation. -/
theorem unknown_method_no_error (m : String) :
    (lowerStr m ≠ "kriging" → run_interpolation_method m = MethodChoice.idw) ∧
    (m ≠ "kriging" → m ≠ "rbf" → m ≠ "idw" →
      perform_interpolation_method m = MethodChoice.noResult) := by
  constructor
  · intro h
    unfold run_interpolation_method
    rw [if_neg h]
  · intro h1 h2 h3
    unfold perform_interpolation_method
    rw [if_neg h1, if_neg h2, if_neg h3]

/-- C5 witness: the unknown method "CUBIC" (exercising the `.lower()`
call) runs IDW on the web endpoint and yields no result in the enhanced
pipeline. -/
theorem unknown_method_no_error_witness :
    run_interpolation_method "CUBIC" = MethodChoice.idw ∧
    perform_interpolation_method "CUBIC" = MethodChoice.noResult :=
  ⟨(unknown_method_no_error "CUBIC").1 (by decide),
    (unknown_method_no_error "CUBIC").2 (by decide) (by decide) (by decide)⟩

/-- The non-null values of a column (`col_data.dropna()`; `count()` and
`nunique()` both ignore nulls). -/
def nonNullValues (col : List (Option ℚ)) : List ℚ :=
  col.filterMap id

/-- `col_data.count()`: number of non-null entries. -/
def nonNullCount (col : List (Option ℚ)) : ℕ :=
  (nonNullValues col).length

/-- `col_data.nunique()`: number of distinct non-null values. -/
def nuniqueCol (col : List (Option ℚ)) : ℕ :=
  (nonNullValues col).dedup.length

/-- `'suitable_for_interpolation': col_data.count() >= 10 and
col_data.nunique() > 5` (`app.py` line 567). -/
def suitable_for_interpolation (col : List (Option ℚ)) : Bool :=
  decide (nonNullCount col ≥ 10) && decide (nuniqueCol col > 5)

/-- The flag as consumers observe it: it is attached only when the column
has at least one non-null value (`if len(clean_data) > 0:` on `app.py`
line 561), and readers default a missing flag to False
(`v.get('suitable_for_interpolation', False)` on line 585). -/
def suitableFlag (col : List (Option ℚ)) : Bool :=
  if 0 < nonNullCount col then suitable_for_interpolation col else false

/-- C8: a numeric column is marked suitable for interpolation iff its
non-null count is at least 10 and its distinct-value count is strictly
greater than 5.  (The "flag absent" case of an all-null column coincides
with the right-hand side being false, since ≥ 10 non-null values force
the column to be non-empty.) -/
theorem suitable_for_interpolation_iff (col : List (Option ℚ)) :
    suitableFlag col = true ↔ (nonNullCount col ≥ 10 ∧ nuniqueCol col > 5) := by
  unfold suitableFlag suitable_for_interpolation
  by_cases h : 0 < nonNullCount col
  · rw [if_pos h]
    simp
  · rw [if_neg h]
    simp only [Bool.false_eq_true, false_iff, not_and]
    intro h10
    omega

/-- Squared Euclidean distance between a grid cell and a sample location
(`cdist` computes the Euclidean distance, which the IDW code squares). -/
def dist2 (p q : ℚ × ℚ) : ℚ :=
  (p.1 - q.1)^2 + (p.2 - q.2)^2

/-- IDW weight of one sample for one cell:
`distances[distances == 0] = 1e-10; weights = 1 / (distances ** 2)`
(`run_enhanced_uganda_analysis.py` lines 166-167) — weight `1/dist²`,
with an exactly-zero distance floored to `1e-10`, i.e. weight `1e20`.
(`app.py` line 355 floors with `np.maximum(distances, 1e-10)`, which
agrees for every distance that is zero or at least `1e-10`.) -/
def idwWeight (cell p : ℚ × ℚ) : ℚ :=
  if dist2 cell p = 0 then 10^20 else 1 / dist2 cell p

/-- `np.sum(weights)`. -/
def wtot (cell : ℚ × ℚ) (samples : List ((ℚ × ℚ) × ℚ)) : ℚ :=
  (samples.map (fun s => idwWeight cell s.1)).sum

/-- `np.sum(weights * values)`. -/
def wsum (cell : ℚ × ℚ) (samples : List ((ℚ × ℚ) × ℚ)) : ℚ :=
  (samples.map (fun s => idwWeight cell s.1 * s.2)).sum

/-- `z[i, j] = np.sum(weights * values) / np.sum(weights)`
(`run_enhanced_uganda_analysis.py` line 168; `app.py` line 357). -/
def idwEstimate (cell : ℚ × ℚ) (samples : List ((ℚ × ℚ) × ℚ)) : ℚ :=
  wsum cell samples / wtot cell samples

lemma dist2_nonneg (p q : ℚ × ℚ) : 0 ≤ dist2 p q :=
  add_nonneg (sq_nonneg _) (sq_nonneg _)

lemma idwWeight_pos (cell p : ℚ × ℚ) : 0 < idwWeight cell p := by
  unfold idwWeight
  by_cases h : dist2 cell p = 0
  · rw [if_pos h]
    norm_num
  · rw [if_neg h]
    exact one_div_pos.mpr (lt_of_le_of_ne (dist2_nonneg cell p) (Ne.symm h))

lemma wtot_nonneg (cell : ℚ × ℚ) (samples : List ((ℚ × ℚ) × ℚ)) :
    0 ≤ wtot cell samples := by
  refine List.sum_nonneg ?_
  intro x hx
  obtain ⟨s, _, rfl⟩ := List.mem_map.mp hx
  exact (idwWeight_pos cell s.1).le

lemma wtot_pos (cell : ℚ × ℚ) {samples : List ((ℚ × ℚ) × ℚ)}
    (h : samples ≠ []) : 0 < wtot cell samples := by
  cases samples with
  | nil => exact absurd rfl h
  | cons s rest =>
    have h1 := idwWeight_pos cell s.1
    have h2 := wtot_nonneg cell rest
    unfold wtot at *
    simp only [List.map_cons, List.sum_cons]
    linarith

lemma wsum_le_mul {cell : ℚ × ℚ} {samples : List ((ℚ × ℚ) × ℚ)} {hi : ℚ}
    (hb : ∀ s ∈ samples, s.2 ≤ hi) :
    wsum cell samples ≤ hi * wtot cell samples := by
  induction samples with
  | nil => simp [wsum, wtot]
  | cons s rest ih =>
    have hw := (idwWeight_pos cell s.1).le
    have h1 : idwWeight cell s.1 * s.2 ≤ idwWeight cell s.1 * hi :=
      mul_le_mul_of_nonneg_left (hb s (by simp)) hw
    have h2 := ih (fun x hx => hb x (by simp [hx]))
    unfold wsum wtot at *
    simp only [List.map_cons, List.sum_cons]
    calc idwWeight cell s.1 * s.2 + (rest.map (fun s => idwWeight cell s.1 * s.2)).sum
        ≤ idwWeight cell s.1 * hi + hi * (rest.map (fun s => idwWeight cell s.1)).sum :=
          add_le_add h1 h2
      _ = hi * (idwWeight cell s.1 + (rest.map (fun s => idwWeight cell s.1)).sum) := by
          ring

lemma mul_le_wsum {cell : ℚ × ℚ} {samples : List ((ℚ × ℚ) × ℚ)} {lo : ℚ}
    (hb : ∀ s ∈ samples, lo ≤ s.2) :
    lo * wtot cell samples ≤ wsum cell samples := by
  induction samples with
  | nil => simp [wsum, wtot]
  | cons s rest ih =>
    have hw := (idwWeight_pos cell s.1).le
    have h1 : idwWeight cell s.1 * lo ≤ idwWeight cell s.1 * s.2 :=
      mul_le_mul_of_nonneg_left (hb s (by simp)) hw
    have h2 := ih (fun x hx => hb x (by simp [hx]))
    unfold wsum wtot at *
    simp only [List.map_cons, List.sum_cons]
    calc lo * (idwWeight cell s.1 + (rest.map (fun s => idwWeight cell s.1)).sum)
        = idwWeight cell s.1 * lo + lo * (rest.map (fun s => idwWeight cell s.1)).sum := by
          ring
      _ ≤ idwWeight cell s.1 * s.2 + (rest.map (fun s => idwWeight cell s.1 * s.2)).sum :=
          add_le_add h1 h2

lemma wsum_const {cell : ℚ × ℚ} {samples : List ((ℚ × ℚ) × ℚ)} {c : ℚ}
    (hc : ∀ s ∈ samples, s.2 = c) :
    wsum cell samples = c * wtot cell samples := by
  induction samples with
  | nil => simp [wsum, wtot]
  | cons s rest ih =>
    have h1 : s.2 = c := hc s (by simp)
    have h2 := ih (fun x hx => hc x (by simp [hx]))
    unfold wsum wtot at *
    simp only [List.map_cons, List.sum_cons, h1, h2]
    ring

/-- C9: every IDW estimate is a weighted average with strictly positive
weights (weight `1/dist²`, zero distances floored), hence lies in the
closed interval spanned by the sample values; and when all sample values
equal `c`, every grid cell's estimate is exactly `c`. -/
theorem idw_estimate_within_sample_range :
    (∀ (cell : ℚ × ℚ) (samples : List ((ℚ × ℚ) × ℚ)) (lo hi : ℚ),
        samples ≠ [] → (∀ s ∈ samples, lo ≤ s.2 ∧ s.2 ≤ hi) →
        lo ≤ idwEstimate cell samples ∧ idwEstimate cell samples ≤ hi) ∧
    (∀ (cell : ℚ × ℚ) (samples : List ((ℚ × ℚ) × ℚ)) (c : ℚ),
        samples ≠ [] → (∀ s ∈ samples, s.2 = c) →
        idwEstimate cell samples = c) := by
  constructor
  · intro cell samples lo hi hne hb
    have hpos := wtot_pos cell hne
    constructor
    · rw [idwEstimate, le_div_iff₀ hpos]
      exact mul_le_wsum (fun s hs => (hb s hs).1)
    · rw [idwEstimate, div_le_iff₀ hpos]
      exact wsum_le_mul (fun s hs => (hb s hs).2)
  · intro cell samples c hne hc
    have hpos := wtot_pos cell hne
    rw [idwEstimate, wsum_const hc, mul_div_assoc, div_self hpos.ne', mul_one]

/-- C9 witness: two samples with values 3 and 5 give an estimate in
[3, 5] at the cell (1, 1); two samples both equal to 7 give exactly 7. -/
theorem idw_estimate_within_sample_range_witness :
    (3 : ℚ) ≤ idwEstimate (1, 1) [((0, 0), 3), ((2, 0), 5)] ∧
    idwEstimate (1, 1) [((0, 0), 3), ((2, 0), 5)] ≤ 5 ∧
    idwEstimate (1, 1) [((0, 0), 7), ((2, 0), 7)] = 7 :=
  ⟨(idw_estimate_within_sample_range.1 (1, 1) [((0, 0), 3), ((2, 0), 5)] 3 5
      (by decide) (by decide)).1,
    (idw_estimate_within_sample_range.1 (1, 1) [((0, 0), 3), ((2, 0), 5)] 3 5
      (by decide) (by decide)).2,
    idw_estimate_within_sample_range.2 (1, 1) [((0, 0), 7), ((2, 0), 7)] 7
      (by decide) (by decide)⟩

/-- One daily sub-job of a variable: the output file it would write, the
day's point count, and whether the interpolation produces a surface. -/
structure DayJob where
  name : String
  points : ℕ
  ok : Bool
deriving DecidableEq

/-- The per-variable `interpolation_log` together with
`daily_raster_files`: success count, failure count, written files. -/
structure VarLog where
  successes : ℕ
  failures : ℕ
  files : List String
deriving DecidableEq

/-- The per-day body of the enhanced pipeline
(`run_enhanced_uganda_analysis.py` lines 175-224): a day with fewer than
5 points increments `failed_interpolations` and writes nothing (lines
180-182); otherwise a null interpolation result increments
`failed_interpolations` (lines 193-195) and a successful one writes a
raster and increments `successful_interpolations` (lines 197-220). -/
def processDay (acc : VarLog) (d : DayJob) : VarLog :=
  if d.points < 5 then { acc with failures := acc.failures + 1 }
  else if d.ok then
    { successes := acc.successes + 1, failures := acc.failures,
      files := acc.files ++ [d.name] }
  else { acc with failures := acc.failures + 1 }

/-- The per-variable body (lines 95-225): a variable with fewer than 10
valid points is skipped entirely — `continue` fires before any
interpolation log exists, so the variable contributes no entry to
`processing_results` (lines 101-103); otherwise its selected days are
folded in order. -/
def processVariable (validPoints : ℕ) (days : List DayJob) : Option VarLog :=
  if validPoints < 10 then none
  else some (days.foldl processDay ⟨0, 0, []⟩)

/-- `total_failed = sum(r['failed_interpolations'] for r in
results_summary['processing_results'].values())` (line 384): variables
skipped for insufficient data contribute nothing. -/
def totalFailures (vars : List (ℕ × List DayJob)) : ℕ :=
  ((vars.filterMap (fun v => processVariable v.1 v.2)).map VarLog.failures).sum

/-- `total_successful` (line 383). -/
def totalSuccesses (vars : List (ℕ × List DayJob)) : ℕ :=
  ((vars.filterMap (fun v => processVariable v.1 v.2)).map VarLog.successes).sum

/-- All daily raster files written during the run. -/
def allRasterFiles (vars : List (ℕ × List DayJob)) : List String :=
  ((vars.filterMap (fun v => processVariable v.1 v.2)).map VarLog.files).flatten

/-- `run_enhanced_uganda_analysis()` (lines 24-396): a loading failure
returns False at once (lines 81-83); otherwise every variable is
processed, the summary is assembled, and the function falls through to
`return True` (line 396) regardless of per-job outcomes.  Modelled on the
loading outcome: `none` for a load failure, otherwise the per-variable
(valid-point-count, daily jobs) data; the result carries the returned
Bool, the success and failure totals, and the raster files written. -/
def run_enhanced_uganda_analysis (load : Option (List (ℕ × List DayJob))) :
    Bool × ℕ × ℕ × List String :=
  match load with
  | none => (false, 0, 0, [])
  | some vars =>
    (true, totalSuccesses vars, totalFailures vars, allRasterFiles vars)

/-- C6 counterexample: a variable with only 3 valid points (below the
per-variable minimum of 10) is skipped, but the run report's failure
count does NOT increment by 1: the variable never enters
`processing_results`, so the total failure count stays 0. -/
theorem insufficient_variable_not_counted :
    processVariable 3 [⟨"uganda_NDVI_daily_2020-01-01.tif", 3, true⟩] = none ∧
    totalFailures [(3, [⟨"uganda_NDVI_daily_2020-01-01.tif", 3, true⟩])] = 0 ∧
    (0 : ℕ) ≠ 1 := by
  refine ⟨rfl, rfl, by decide⟩

/-- C6 (amended): a daily sub-job below the 5-point minimum is skipped
with exactly one added failure, writes no raster, and the fold continues
with the remaining days; a variable below the 10-point minimum is
skipped without writing any raster and without aborting the run, but it
increments no failure counter — it is omitted from the run report
entirely. -/
theorem insufficient_data_skip :
    (∀ (acc : VarLog) (d : DayJob), d.points < 5 →
        processDay acc d = { acc with failures := acc.failures + 1 }) ∧
    (∀ (acc : VarLog) (d : DayJob) (rest : List DayJob), d.points < 5 →
        (d :: rest).foldl processDay acc =
          rest.foldl processDay { acc with failures := acc.failures + 1 }) ∧
    (∀ (v : ℕ) (days : List DayJob), v < 10 →
        processVariable v days = none) ∧
    (∀ (v : ℕ) (days : List DayJob) (rest : List (ℕ × List DayJob)),
        v < 10 → totalFailures ((v, days) :: rest) = totalFailures rest) := by
  have h1 : ∀ (acc : VarLog) (d : DayJob), d.points < 5 →
      processDay acc d = { acc with failures := acc.failures + 1 } := by
    intro acc d hd
    unfold processDay
    rw [if_pos hd]
  have h3 : ∀ (v : ℕ) (days : List DayJob), v < 10 →
      processVariable v days = none := by
    intro v days hv
    unfold processVariable
    rw [if_pos hv]
  refine ⟨h1, ?_, h3, ?_⟩
  · intro acc d rest hd
    rw [List.foldl_cons, h1 acc d hd]
  · intro v days rest hv
    unfold totalFailures
    rw [List.filterMap_cons]
    simp only [h3 v days hv]

/-- C6 witness: a 4-point day adds exactly one failure and no file; a
3-point variable yields no log and leaves the failure total of the
remaining variables unchanged. -/
theorem insufficient_data_skip_witness :
    processDay ⟨2, 3, ["f.tif"]⟩ ⟨"d.tif", 4, true⟩ = ⟨2, 4, ["f.tif"]⟩ ∧
    processVariable 3 [] = none ∧
    totalFailures [(3, []), (12, [⟨"d1.tif", 2, true⟩])] =
      totalFailures [(12, [⟨"d1.tif", 2, true⟩])] := by
  refine ⟨?_, insufficient_data_skip.2.2.1 3 [] (by decide),
    insufficient_data_skip.2.2.2 3 [] [(12, [⟨"d1.tif", 2, true⟩])] (by decide)⟩
  have h := insufficient_data_skip.1 ⟨2, 3, ["f.tif"]⟩ ⟨"d.tif", 4, true⟩ (by decide)
  simpa using h

/-- C10: the enhanced pipeline returns False iff the input-loading step
fails; whenever loading succeeds it returns True — even when every
per-variable and per-day job fails or is skipped and zero raster files
are produced (concretely: a single 3-point variable yields zero
successes, zero counted failures and zero rasters, yet the run reports
True). -/
theorem run_enhanced_false_iff_load_fails :
    (∀ load : Option (List (ℕ × List DayJob)),
        (run_enhanced_uganda_analysis load).1 = false ↔ load = none) ∧
    (∀ vars : List (ℕ × List DayJob),
        (run_enhanced_uganda_analysis (some vars)).1 = true) ∧
    run_enhanced_uganda_analysis
        (some [(3, [⟨"uganda_NDVI_daily_2020-01-01.tif", 3, true⟩])]) =
      (true, 0, 0, []) := by
  refine ⟨?_, fun vars => rfl, rfl⟩
  intro load
  cases load with
  | none => simp [run_enhanced_uganda_analysis]
  | some vars => simp [run_enhanced_uganda_analysis]

end Uganda
